import Mathlib

/-!
Verification of the WaveForge wavetable engine.

Shallow embedding of the signal-processing core of the WaveForge wavetable
editor: the waveform generators, the normalizer, the brush editor, the
interpolation/morph logic, the frame store operations and the WAV encoder.

Modelling conventions:
- Sample amplitudes are modelled as exact rationals where the source code
  performs only field arithmetic (brush, interpolation, store), and as real
  numbers where the source calls Math.sin / Math.PI (sine generator, formula
  fallback, additive synthesis).
- JavaScript Float32Array buffers are modelled as Lean lists.  Reads of
  index i are modelled by List.getD i 0; writes by List.set (which, exactly
  like a typed-array write, is a no-op out of bounds).
- Loops of the form "for i in 0..n" over a buffer become folds/maps over
  List.range n.
- In the WAV encoder, a 32-bit float sample is represented by its IEEE-754
  bit pattern (a natural number below 2^32); DataView.setFloat32(..., true)
  writes the four bytes of that pattern little-endian.
-/

set_option maxRecDepth 4000

namespace WaveForge

/-- FRAME_SIZE from types.ts. -/
def FRAME_SIZE : Nat := 2048

/-- MAX_FRAMES from types.ts. -/
def MAX_FRAMES : Nat := 256

/-- Reading a list element below the length is the same as indexed access. -/
theorem getD_eq_getElem {α : Type} (l : List α) (n : Nat) (d : α) (h : n < l.length) :
    l.getD n d = l[n] := by
  simp [List.getD_eq_getElem?_getD, List.getElem?_eq_getElem h]

/-- Writing at one index leaves getD at every other index unchanged. -/
theorem getD_set_ne {α : Type} (l : List α) (i j : Nat) (v d : α) (h : i ≠ j) :
    (l.set i v).getD j d = l.getD j d := by
  simp [List.getD_eq_getElem?_getD, List.getElem?_set_ne h]

/-- A map over List.range reading back a list of that length is the list itself. -/
theorem map_getD_range {α : Type} (l : List α) (d : α) (n : Nat) (h : l.length = n) :
    (List.range n).map (fun i => l.getD i d) = l := by
  apply List.ext_getElem (by simp [h])
  intro k h1 h2
  rw [List.getElem_map, List.getElem_range, getD_eq_getElem l k d (by omega)]

/-- interpolateFrames from audioUtils.ts (lines 268-274 of the utils source):
a fresh FRAME_SIZE buffer with result[i] = frameA[i]*(1-mix) + frameB[i]*mix. -/
def interpolateFrames (frameA frameB : List ℚ) (mix : ℚ) : List ℚ :=
  (List.range FRAME_SIZE).map
    (fun i => frameA.getD i 0 * (1 - mix) + frameB.getD i 0 * mix)

/-- Claim C8: for every pair of FRAME_SIZE buffers a and b,
interpolateFrames a b 0 equals a sample-wise and interpolateFrames a b 1
equals b sample-wise (the endpoint identity laws of the linear crossfade). -/
theorem interpolateFrames_endpoints (a b : List ℚ)
    (ha : a.length = FRAME_SIZE) (hb : b.length = FRAME_SIZE) :
    interpolateFrames a b 0 = a ∧ interpolateFrames a b 1 = b := by
  constructor
  · unfold interpolateFrames
    have he : (fun i => a.getD i 0 * (1 - (0:ℚ)) + b.getD i 0 * 0)
        = fun i => a.getD i 0 := by funext i; ring
    rw [he, map_getD_range a 0 FRAME_SIZE ha]
  · unfold interpolateFrames
    have he : (fun i => a.getD i 0 * (1 - (1:ℚ)) + b.getD i 0 * 1)
        = fun i => b.getD i 0 := by funext i; ring
    rw [he, map_getD_range b 0 FRAME_SIZE hb]

/-- Witness for claim C8 at a concrete pair of constant 2048-sample buffers. -/
theorem interpolateFrames_endpoints_witness :
    (List.replicate FRAME_SIZE (1:ℚ)).length = FRAME_SIZE ∧
    (List.replicate FRAME_SIZE ((1:ℚ)/2)).length = FRAME_SIZE ∧
    (interpolateFrames (List.replicate FRAME_SIZE 1) (List.replicate FRAME_SIZE ((1:ℚ)/2)) 0
        = List.replicate FRAME_SIZE 1 ∧
      interpolateFrames (List.replicate FRAME_SIZE 1) (List.replicate FRAME_SIZE ((1:ℚ)/2)) 1
        = List.replicate FRAME_SIZE ((1:ℚ)/2)) :=
  ⟨by simp, by simp,
    interpolateFrames_endpoints _ _ (by simp) (by simp)⟩

/-- The wavetable store state of App.tsx: the frames array and the
currentIndex cursor.  The frame payload type is abstract because the store
operations never inspect buffer contents. -/
structure Store (α : Type) where
  frames : List α
  currentIndex : Nat
deriving DecidableEq

/-- addFrame from App.tsx (lines 143-147): rejected when length has reached
MAX_FRAMES; otherwise appends a copy of the current frame and moves the
cursor to the previous length, i.e. the new last index. -/
def addFrame {α : Type} [Inhabited α] (s : Store α) : Store α :=
  if s.frames.length ≥ MAX_FRAMES then s
  else { frames := s.frames ++ [s.frames.getD s.currentIndex default],
         currentIndex := s.frames.length }

/-- The Duplicate button handler from App.tsx (line 322): it inlines
setFrames([...frames, new Float32Array(frames[currentIndex])]) with no
MAX_FRAMES guard and no cursor update. -/
def duplicateFrame {α : Type} [Inhabited α] (s : Store α) : Store α :=
  { s with frames := s.frames ++ [s.frames.getD s.currentIndex default] }

/-- deleteFrame from App.tsx (lines 149-154): rejected when at most one
frame remains; otherwise removes the frame at the cursor
(frames.filter of index different from currentIndex) and re-clamps the
cursor to min(currentIndex, newLength - 1). -/
def deleteFrame {α : Type} (s : Store α) : Store α :=
  if s.frames.length ≤ 1 then s
  else
    let newFrames := s.frames.eraseIdx s.currentIndex
    { frames := newFrames, currentIndex := min s.currentIndex (newFrames.length - 1) }

/-- Claim C4: for every store state with a valid cursor, deleting with one
frame left is a no-op, adding at MAX_FRAMES is a no-op, after add or delete
the cursor is a valid index, and delete re-clamps the cursor to
min(cursor, newLength - 1). -/
theorem store_invariants {α : Type} [Inhabited α] (s : Store α)
    (hc : s.currentIndex < s.frames.length) :
    (s.frames.length = 1 → deleteFrame s = s) ∧
    (s.frames.length = MAX_FRAMES → addFrame s = s) ∧
    (addFrame s).currentIndex < (addFrame s).frames.length ∧
    (deleteFrame s).currentIndex < (deleteFrame s).frames.length ∧
    (1 < s.frames.length →
      (deleteFrame s).currentIndex = min s.currentIndex ((deleteFrame s).frames.length - 1)) := by
  have hlen : (s.frames.eraseIdx s.currentIndex).length =
      if s.currentIndex < s.frames.length then s.frames.length - 1 else s.frames.length :=
    List.length_eraseIdx s.frames s.currentIndex
  rw [if_pos hc] at hlen
  refine ⟨?_, ?_, ?_, ?_, ?_⟩
  · intro h1
    unfold deleteFrame
    rw [if_pos (by omega)]
  · intro hm
    unfold addFrame
    rw [if_pos (by omega)]
  · unfold addFrame
    by_cases hge : s.frames.length ≥ MAX_FRAMES
    · rw [if_pos hge]; exact hc
    · rw [if_neg hge]; simp
  · unfold deleteFrame
    by_cases hle : s.frames.length ≤ 1
    · rw [if_pos hle]; exact hc
    · rw [if_neg hle]; simp only [hlen]; omega
  · intro h2
    unfold deleteFrame
    rw [if_neg (by omega)]

/-- Witness for claim C4 at the concrete store with frames [10, 20] and cursor 1. -/
theorem store_invariants_witness :
    (Store.mk [10, 20] 1 : Store Nat).currentIndex < (Store.mk [10, 20] 1 : Store Nat).frames.length ∧
    (((Store.mk [10, 20] 1 : Store Nat).frames.length = 1 →
        deleteFrame (Store.mk [10, 20] 1 : Store Nat) = Store.mk [10, 20] 1) ∧
      ((Store.mk [10, 20] 1 : Store Nat).frames.length = MAX_FRAMES →
        addFrame (Store.mk [10, 20] 1 : Store Nat) = Store.mk [10, 20] 1) ∧
      (addFrame (Store.mk [10, 20] 1 : Store Nat)).currentIndex <
        (addFrame (Store.mk [10, 20] 1 : Store Nat)).frames.length ∧
      (deleteFrame (Store.mk [10, 20] 1 : Store Nat)).currentIndex <
        (deleteFrame (Store.mk [10, 20] 1 : Store Nat)).frames.length ∧
      (1 < (Store.mk [10, 20] 1 : Store Nat).frames.length →
        (deleteFrame (Store.mk [10, 20] 1 : Store Nat)).currentIndex =
          min (Store.mk [10, 20] 1 : Store Nat).currentIndex
            ((deleteFrame (Store.mk [10, 20] 1 : Store Nat)).frames.length - 1))) :=
  ⟨by decide, store_invariants (Store.mk [10, 20] 1) (by decide)⟩

/-- Claim C3 (code bug): at MAX_FRAMES the Duplicate button still appends a
257th frame and it leaves the cursor unchanged, while addFrame at the same
state is a no-op — so duplicate does not have the add semantics. -/
theorem duplicate_ignores_max_frames :
    (duplicateFrame (Store.mk (List.replicate MAX_FRAMES 0) 5 : Store Nat)).frames.length
        = MAX_FRAMES + 1 ∧
    (duplicateFrame (Store.mk (List.replicate MAX_FRAMES 0) 5 : Store Nat)).currentIndex = 5 ∧
    addFrame (Store.mk (List.replicate MAX_FRAMES 0) 5 : Store Nat)
        = Store.mk (List.replicate MAX_FRAMES 0) 5 := by
  refine ⟨?_, rfl, ?_⟩
  · simp [duplicateFrame]
  · unfold addFrame
    rw [if_pos (by simp)]

/-- morphBetween from App.tsx (lines 204-217): a no-op below 3 frames;
otherwise maps every position i to the first frame at 0, the last frame at
count-1, and interpolateFrames first last (i/(count-1)) in the interior.
The source maps over the frames array using only the position, so the map
over List.range count is the direct rendering. -/
def morphBetween (frames : List (List ℚ)) : List (List ℚ) :=
  if frames.length < 3 then frames
  else
    let first := frames.getD 0 []
    let lastF := frames.getD (frames.length - 1) []
    let count := frames.length
    (List.range count).map (fun i =>
      if i = 0 then first
      else if i = count - 1 then lastF
      else interpolateFrames first lastF ((i : ℚ) / ((count : ℚ) - 1)))

/-- Claim C7: morphBetween is a no-op below 3 frames; with at least 3 frames
it preserves the length, keeps the first and last frames unchanged, and
replaces every interior frame k by interpolateFrames first last (k/(count-1)). -/
theorem morphBetween_spec (frames : List (List ℚ)) :
    (frames.length < 3 → morphBetween frames = frames) ∧
    (3 ≤ frames.length →
      (morphBetween frames).length = frames.length ∧
      (morphBetween frames).getD 0 [] = frames.getD 0 [] ∧
      (morphBetween frames).getD (frames.length - 1) [] = frames.getD (frames.length - 1) [] ∧
      (∀ k, 0 < k → k < frames.length - 1 →
        (morphBetween frames).getD k [] =
          interpolateFrames (frames.getD 0 []) (frames.getD (frames.length - 1) [])
            ((k : ℚ) / ((frames.length : ℚ) - 1)))) := by
  constructor
  · intro h
    unfold morphBetween
    rw [if_pos h]
  · intro h3
    have hcond : ¬ frames.length < 3 := by omega
    have hform : morphBetween frames = (List.range frames.length).map (fun i =>
        if i = 0 then frames.getD 0 []
        else if i = frames.length - 1 then frames.getD (frames.length - 1) []
        else interpolateFrames (frames.getD 0 []) (frames.getD (frames.length - 1) [])
          ((i : ℚ) / ((frames.length : ℚ) - 1))) := by
      unfold morphBetween
      rw [if_neg hcond]
    have hlen : (morphBetween frames).length = frames.length := by
      rw [hform]; simp
    have hget : ∀ k, k < frames.length → (morphBetween frames).getD k [] =
        (if k = 0 then frames.getD 0 []
         else if k = frames.length - 1 then frames.getD (frames.length - 1) []
         else interpolateFrames (frames.getD 0 []) (frames.getD (frames.length - 1) [])
           ((k : ℚ) / ((frames.length : ℚ) - 1))) := by
      intro k hk
      rw [hform, getD_eq_getElem _ k [] (by simpa using hk), List.getElem_map,
        List.getElem_range]
    refine ⟨hlen, ?_, ?_, ?_⟩
    · rw [hget 0 (by omega)]; simp
    · rw [hget (frames.length - 1) (by omega)]
      rw [if_neg (by omega), if_pos rfl]
    · intro k hk0 hk1
      rw [hget k (by omega), if_neg (by omega), if_neg (by omega)]

/-- Witness for claim C7 at a concrete 5-frame table, exercising the
interior frame at position 2 with mix 2/(5-1) = 1/2. -/
theorem morphBetween_spec_witness :
    3 ≤ ([[1], [2], [3], [4], [5]] : List (List ℚ)).length ∧
    0 < 2 ∧ 2 < ([[1], [2], [3], [4], [5]] : List (List ℚ)).length - 1 ∧
    (morphBetween [[1], [2], [3], [4], [5]]).getD 2 [] =
      interpolateFrames (([[1], [2], [3], [4], [5]] : List (List ℚ)).getD 0 [])
        (([[1], [2], [3], [4], [5]] : List (List ℚ)).getD
          (([[1], [2], [3], [4], [5]] : List (List ℚ)).length - 1) [])
        ((2 : ℚ) / ((([[1], [2], [3], [4], [5]] : List (List ℚ)).length : ℚ) - 1)) :=
  ⟨by decide, by decide, by decide,
    ((morphBetween_spec [[1], [2], [3], [4], [5]]).2 (by decide)).2.2.2 2 (by decide) (by decide)⟩

/-- applyBrush from WaveformCanvas.tsx (lines 89-101): for every offset i in
[-15, 15], when idx = centerIndex + i satisfies 0 <= idx < FRAME_SIZE, blend
buffer[idx] with the target amplitude using the linear falloff
1 - abs(i)/15.  The loop over i = -15..15 is rendered as a fold over
List.range 31 with i = k - 15. -/
def applyBrush (buffer : List ℚ) (centerIndex : Int) (amp : ℚ) : List ℚ :=
  (List.range 31).foldl (fun (buf : List ℚ) (k : Nat) =>
    let i : Int := (k : Int) - 15
    let idx : Int := centerIndex + i
    if 0 ≤ idx ∧ idx < (FRAME_SIZE : Int) then
      let falloff : ℚ := 1 - (i.natAbs : ℚ) / 15
      buf.set idx.toNat (buf.getD idx.toNat 0 * (1 - falloff) + amp * falloff)
    else buf) buffer

/-- The brush fold never changes the length of the buffer. -/
theorem brushFold_length (centerIndex : Int) (amp : ℚ) (ks : List Nat) (buffer : List ℚ) :
    (ks.foldl (fun (buf : List ℚ) (k : Nat) =>
      let i : Int := (k : Int) - 15
      let idx : Int := centerIndex + i
      if 0 ≤ idx ∧ idx < (FRAME_SIZE : Int) then
        let falloff : ℚ := 1 - (i.natAbs : ℚ) / 15
        buf.set idx.toNat (buf.getD idx.toNat 0 * (1 - falloff) + amp * falloff)
      else buf) buffer).length = buffer.length := by
  induction ks generalizing buffer with
  | nil => rfl
  | cons k ks ih =>
    simp only [List.foldl_cons]
    rw [ih]
    by_cases hg : 0 ≤ centerIndex + ((k : Int) - 15) ∧ centerIndex + ((k : Int) - 15) < (FRAME_SIZE : Int)
    · rw [if_pos hg]; simp
    · rw [if_neg hg]

/-- The brush fold leaves every sample outside the brush window untouched,
as long as every offset index k in the fold comes from the source loop
range 0..30. -/
theorem brushFold_untouched (centerIndex : Int) (amp : ℚ) (ks : List Nat)
    (hks : ∀ k ∈ ks, k < 31) (buffer : List ℚ) (j : Nat)
    (hj : (j : Int) < centerIndex - 15 ∨ centerIndex + 15 < (j : Int) ∨ FRAME_SIZE ≤ j) :
    (ks.foldl (fun (buf : List ℚ) (k : Nat) =>
      let i : Int := (k : Int) - 15
      let idx : Int := centerIndex + i
      if 0 ≤ idx ∧ idx < (FRAME_SIZE : Int) then
        let falloff : ℚ := 1 - (i.natAbs : ℚ) / 15
        buf.set idx.toNat (buf.getD idx.toNat 0 * (1 - falloff) + amp * falloff)
      else buf) buffer).getD j 0 = buffer.getD j 0 := by
  induction ks generalizing buffer with
  | nil => rfl
  | cons k ks ih =>
    simp only [List.foldl_cons]
    have hk31 : k < 31 := hks k (List.mem_cons_self k ks)
    have htail : ∀ x ∈ ks, x < 31 := fun x hx => hks x (List.mem_cons_of_mem k hx)
    rw [ih htail]
    by_cases hg : 0 ≤ centerIndex + ((k : Int) - 15) ∧ centerIndex + ((k : Int) - 15) < (FRAME_SIZE : Int)
    · rw [if_pos hg]
      apply getD_set_ne
      have hfs : (FRAME_SIZE : Int) = 2048 := by norm_num [FRAME_SIZE]
      have hfs2 : FRAME_SIZE = 2048 := by norm_num [FRAME_SIZE]
      omega
    · rw [if_neg hg]

/-- Claim C10: for every buffer, every integer centerIndex (including
out-of-range values such as FRAME_SIZE) and every amplitude, applyBrush
preserves the buffer length (no out-of-bounds write can grow or corrupt the
buffer), leaves every sample outside the window [centerIndex-15,
centerIndex+15] unchanged, and leaves every index at or above FRAME_SIZE
unchanged. -/
theorem applyBrush_safety (buffer : List ℚ) (centerIndex : Int) (amp : ℚ) :
    (applyBrush buffer centerIndex amp).length = buffer.length ∧
    (∀ j : Nat, ((j : Int) < centerIndex - 15 ∨ centerIndex + 15 < (j : Int)) →
      (applyBrush buffer centerIndex amp).getD j 0 = buffer.getD j 0) ∧
    (∀ j : Nat, FRAME_SIZE ≤ j →
      (applyBrush buffer centerIndex amp).getD j 0 = buffer.getD j 0) := by
  refine ⟨brushFold_length centerIndex amp (List.range 31) buffer, ?_, ?_⟩
  · intro j hj
    exact brushFold_untouched centerIndex amp (List.range 31)
      (fun k hk => List.mem_range.mp hk) buffer j (by tauto)
  · intro j hj
    exact brushFold_untouched centerIndex amp (List.range 31)
      (fun k hk => List.mem_range.mp hk) buffer j (Or.inr (Or.inr hj))

/-- Witness for claim C10 with the right-edge centerIndex FRAME_SIZE = 2048
that the canvas cursor mapping can produce, at untouched index 5. -/
theorem applyBrush_safety_witness :
    (applyBrush (List.replicate 20 ((1:ℚ)/2)) (FRAME_SIZE : Int) 1).length
        = (List.replicate 20 ((1:ℚ)/2)).length ∧
    ((5 : Int) < (FRAME_SIZE : Int) - 15 ∨ (FRAME_SIZE : Int) + 15 < (5 : Int)) ∧
    (applyBrush (List.replicate 20 ((1:ℚ)/2)) (FRAME_SIZE : Int) 1).getD 5 0
        = (List.replicate 20 ((1:ℚ)/2)).getD 5 0 :=
  ⟨(applyBrush_safety (List.replicate 20 ((1:ℚ)/2)) (FRAME_SIZE : Int) 1).1,
    Or.inl (by norm_num [FRAME_SIZE]),
    (applyBrush_safety (List.replicate 20 ((1:ℚ)/2)) (FRAME_SIZE : Int) 1).2.1 5
      (Or.inl (by norm_num [FRAME_SIZE]))⟩

/-- The list of brush applications (center, amplitude) that one handleMove
step must perform between the previous pointer sample and the current one,
following the drag-continuation wording of the spec: a single application at
the current position when steps = 0, and otherwise steps+1 applications
stepping one index at a time with linearly interpolated amplitude. -/
def dragApplications (prevIndex : Nat) (prevAmp : ℚ) (currIndex : Nat) (currAmp : ℚ) :
    List (Int × ℚ) :=
  let steps := ((currIndex : Int) - (prevIndex : Int)).natAbs
  let stepDir : Int := if (currIndex : Int) > (prevIndex : Int) then 1 else -1
  if steps = 0 then [((currIndex : Int), currAmp)]
  else (List.range (steps + 1)).map (fun (i : Nat) =>
    ((prevIndex : Int) + (i : Int) * stepDir,
      prevAmp + (currAmp - prevAmp) * ((i : ℚ) / (steps : ℚ))))

/-- The buffer produced by one handleMove step of WaveformCanvas.tsx
(lines 119-153), given the previous pointer sample recorded in
prevPosRef and the current cursor sample: steps = abs(endIdx - startIdx);
if steps = 0 apply the brush once at the current position, else loop
i = 0..steps applying the brush at startIdx + i*stepDir with amplitude
prev.amp + (currAmp - prev.amp) * (i / steps). -/
def handleMoveBuffer (buffer : List ℚ) (prevIndex : Nat) (prevAmp : ℚ)
    (currIndex : Nat) (currAmp : ℚ) : List ℚ :=
  let startIdx := (prevIndex : Int)
  let endIdx := (currIndex : Int)
  let steps := (endIdx - startIdx).natAbs
  let stepDir : Int := if endIdx > startIdx then 1 else -1
  if steps = 0 then applyBrush buffer endIdx currAmp
  else (List.range (steps + 1)).foldl
    (fun (buf : List ℚ) (i : Nat) => applyBrush buf (startIdx + (i : Int) * stepDir)
      (prevAmp + (currAmp - prevAmp) * ((i : ℚ) / (steps : ℚ)))) buffer

/-- Claim C6: one handleMove step performs exactly the brush applications of
dragApplications — the full brush kernel once per application; when
steps > 0 there are steps+1 of them, the i-th centered at
prevIndex + i*stepDir with amplitude prevAmp + (currAmp-prevAmp)*(i/steps);
when steps = 0 a single application at the current sample; and every index
between prevIndex and currIndex inclusive is the center of at least one
application (no untouched holes). -/
theorem handleMove_interpolation (buffer : List ℚ) (p : Nat) (pa : ℚ) (c : Nat) (ca : ℚ) :
    handleMoveBuffer buffer p pa c ca =
      (dragApplications p pa c ca).foldl (fun buf e => applyBrush buf e.1 e.2) buffer ∧
    (dragApplications p pa c ca).length = ((c : Int) - (p : Int)).natAbs + 1 ∧
    (((c : Int) - (p : Int)).natAbs = 0 → dragApplications p pa c ca = [((c : Int), ca)]) ∧
    (∀ i : Nat, i ≤ ((c : Int) - (p : Int)).natAbs → 0 < ((c : Int) - (p : Int)).natAbs →
      (dragApplications p pa c ca).getD i (0, 0) =
        ((p : Int) + (i : Int) * (if (c : Int) > (p : Int) then 1 else -1),
          pa + (ca - pa) * ((i : ℚ) / ((((c : Int) - (p : Int)).natAbs : ℚ)))) ) ∧
    (∀ j : Nat, min p c ≤ j → j ≤ max p c →
      ∃ e ∈ dragApplications p pa c ca, e.1 = (j : Int)) := by
  refine ⟨?_, ?_, ?_, ?_, ?_⟩
  · unfold handleMoveBuffer dragApplications
    by_cases h0 : ((c : Int) - (p : Int)).natAbs = 0
    · rw [if_pos h0, if_pos h0]
      simp
    · rw [if_neg h0, if_neg h0, List.foldl_map]
  · unfold dragApplications
    by_cases h0 : ((c : Int) - (p : Int)).natAbs = 0
    · rw [if_pos h0]; simp [h0]
    · rw [if_neg h0]; simp
  · intro h0
    unfold dragApplications
    rw [if_pos h0]
  · intro i hi hpos
    unfold dragApplications
    rw [if_neg (by omega)]
    rw [getD_eq_getElem _ i (0, 0) (by simp; omega), List.getElem_map, List.getElem_range]
  · intro j hj1 hj2
    by_cases h0 : ((c : Int) - (p : Int)).natAbs = 0
    · have hpc : p = c := by omega
      have hjc : j = c := by omega
      refine ⟨((c : Int), ca), ?_, by omega⟩
      unfold dragApplications
      rw [if_pos h0]
      simp
    · unfold dragApplications
      rw [if_neg h0]
      by_cases hdir : (c : Int) > (p : Int)
      · refine ⟨((p : Int) + ((j - p : Nat) : Int) * (if (c : Int) > (p : Int) then 1 else -1),
          pa + (ca - pa) * (((j - p : Nat) : ℚ) / ((((c : Int) - (p : Int)).natAbs : ℚ)))), ?_, ?_⟩
        · apply List.mem_map.mpr
          exact ⟨j - p, List.mem_range.mpr (by omega), rfl⟩
        · rw [if_pos hdir]; omega
      · refine ⟨((p : Int) + ((p - j : Nat) : Int) * (if (c : Int) > (p : Int) then 1 else -1),
          pa + (ca - pa) * (((p - j : Nat) : ℚ) / ((((c : Int) - (p : Int)).natAbs : ℚ)))), ?_, ?_⟩
        · apply List.mem_map.mpr
          exact ⟨p - j, List.mem_range.mpr (by omega), rfl⟩
        · rw [if_neg hdir]; omega

/-- Witness for claim C6 at the concrete drag step from index 0 amp 0 to
index 3 amp 1: the element hypotheses and the coverage hypotheses are
discharged at i = 1 and j = 2. -/
theorem handleMove_interpolation_witness :
    (1 ≤ ((3 : Int) - (0 : Int)).natAbs) ∧ (0 < ((3 : Int) - (0 : Int)).natAbs) ∧
    (dragApplications 0 0 3 1).getD 1 (0, 0) =
      (((0 : Nat) : Int) + ((1 : Nat) : Int) * (if ((3 : Nat) : Int) > ((0 : Nat) : Int) then 1 else -1),
        (0 : ℚ) + ((1 : ℚ) - 0) * (((1 : Nat) : ℚ) / (((((3 : Nat) : Int) - ((0 : Nat) : Int)).natAbs : ℚ)))) ∧
    (min 0 3 ≤ 2 ∧ 2 ≤ max 0 3) ∧
    (∃ e ∈ dragApplications 0 0 3 1, e.1 = ((2 : Nat) : Int)) :=
  ⟨by decide, by decide,
    (handleMove_interpolation [] 0 0 3 1).2.2.2.1 1 (by decide) (by decide),
    ⟨by decide, by decide⟩,
    (handleMove_interpolation [] 0 0 3 1).2.2.2.2 2 (by decide) (by decide)⟩

/-- A JavaScript number as produced by evaluating a user formula at one
sample index: NaN, positive or negative Infinity, or a finite real. -/
inductive JSNum where
  | nan : JSNum
  | posInf : JSNum
  | negInf : JSNum
  | fin : ℝ → JSNum

/-- The JavaScript isNaN test. -/
def jsIsNaN : JSNum → Bool
  | .nan => true
  | _ => false

/-- The JavaScript comparison v > q for a number v against a finite q:
false for NaN, true for positive Infinity, false for negative Infinity. -/
def jsGt : JSNum → ℝ → Prop
  | .nan, _ => False
  | .posInf, _ => True
  | .negInf, _ => False
  | .fin r, q => r > q

/-- The JavaScript comparison v < q for a number v against a finite q:
false for NaN, false for positive Infinity, true for negative Infinity. -/
def jsLt : JSNum → ℝ → Prop
  | .nan, _ => False
  | .posInf, _ => False
  | .negInf, _ => True
  | .fin r, q => r < q

/-- The real number stored into the Float32Array for a JavaScript value
(after the per-sample processing chain the value is always finite). -/
def jsToReal : JSNum → ℝ
  | .fin r => r
  | _ => 0

open scoped Classical

/-- The per-sample post-processing of generateFromFormula (audioUtils.ts
lines 215-225 of the utils source), exactly in source order: if isNaN(val)
then val = 0; if val > 1 then val = 1; if val < -1 then val = -1. -/
noncomputable def processVal (v : JSNum) : ℝ :=
  let v1 := if jsIsNaN v then JSNum.fin 0 else v
  let v2 := if jsGt v1 1 then JSNum.fin 1 else v1
  let v3 := if jsLt v2 (-1) then JSNum.fin (-1) else v2
  jsToReal v3

/-- generateSine from audioUtils.ts (lines 192-198 of the utils source):
buffer[i] = Math.sin((i / FRAME_SIZE) * Math.PI * 2). -/
noncomputable def generateSine : List ℝ :=
  (List.range FRAME_SIZE).map
    (fun (i : Nat) => Real.sin ((i : ℝ) / (FRAME_SIZE : ℝ) * Real.pi * 2))

/-- The evaluation loop of generateFromFormula run for the first k sample
indices.  The evaluator f returns none when the JavaScript expression
throws at that index; a throw aborts the loop (the exception propagates out
of the for loop to the surrounding catch). -/
noncomputable def runFormula (f : Nat → Option JSNum) : Nat → Option (List ℝ)
  | 0 => some []
  | k + 1 =>
    match runFormula f k, f k with
    | some pre, some v => some (pre ++ [processVal v])
    | _, _ => none

/-- generateFromFormula from audioUtils.ts (lines 208-232 of the utils
source).  The setup argument models new Function(...): none when the
constructor itself throws (syntactically invalid expression), otherwise
some evaluator mapping each sample index to the evaluated value (none for a
per-sample throw).  Everything runs inside one try/catch whose handler
returns generateSine(), so any abort yields the sine buffer. -/
noncomputable def generateFromFormula (setup : Option (Nat → Option JSNum)) : List ℝ :=
  match setup with
  | none => generateSine
  | some f => (runFormula f FRAME_SIZE).getD generateSine

/-- If the evaluator throws at any index below k, the loop aborts. -/
theorem runFormula_none (f : Nat → Option JSNum) (k : Nat)
    (h : ∃ i, i < k ∧ f i = none) : runFormula f k = none := by
  induction k with
  | zero => omega
  | succ k ih =>
    obtain ⟨i, hik, hfi⟩ := h
    by_cases hik2 : i < k
    · unfold runFormula
      rw [ih ⟨i, hik2, hfi⟩]
    · have : i = k := by omega
      subst this
      unfold runFormula
      rw [hfi]
      rcases runFormula f i with _ | _ <;> rfl

/-- If the evaluator succeeds at every index below k, the loop produces the
processed value at each index in order. -/
theorem runFormula_some (f : Nat → Option JSNum) (k : Nat)
    (h : ∀ i, i < k → f i ≠ none) :
    runFormula f k = some ((List.range k).map (fun i => processVal ((f i).getD JSNum.nan))) := by
  induction k with
  | zero => rfl
  | succ k ih =>
    have hk : f k ≠ none := h k (by omega)
    obtain ⟨v, hv⟩ : ∃ v, f k = some v := by
      cases hfk : f k with
      | none => exact absurd hfk hk
      | some v => exact ⟨v, rfl⟩
    unfold runFormula
    rw [ih (fun i hi => h i (by omega)), hv, List.range_succ, List.map_append]
    simp [hv]

/-- Unfolding lemma: generateFromFormula on a constructed evaluator. -/
theorem generateFromFormula_some (f : Nat → Option JSNum) :
    generateFromFormula (some f) = (runFormula f FRAME_SIZE).getD generateSine := rfl

/-- The per-sample processing chain written as one case split. -/
theorem processVal_cases (v : JSNum) :
    processVal v = match v with
      | .nan => (0 : ℝ)
      | .posInf => 1
      | .negInf => -1
      | .fin r => max (-1) (min 1 r) := by
  cases v with
  | nan =>
    simp only [processVal]
    rw [if_pos (show jsIsNaN JSNum.nan = true from rfl)]
    rw [if_neg (show ¬ jsGt (JSNum.fin 0) 1 by norm_num [jsGt])]
    rw [if_neg (show ¬ jsLt (JSNum.fin 0) (-1) by norm_num [jsLt])]
    rfl
  | posInf =>
    simp only [processVal]
    rw [if_neg (show ¬ jsIsNaN JSNum.posInf = true by simp [jsIsNaN])]
    rw [if_pos (show jsGt JSNum.posInf 1 from trivial)]
    rw [if_neg (show ¬ jsLt (JSNum.fin 1) (-1) by norm_num [jsLt])]
    rfl
  | negInf =>
    simp only [processVal]
    rw [if_neg (show ¬ jsIsNaN JSNum.negInf = true by simp [jsIsNaN])]
    rw [if_neg (show ¬ jsGt JSNum.negInf 1 by simp [jsGt])]
    rw [if_pos (show jsLt JSNum.negInf (-1) from trivial)]
    rfl
  | fin r =>
    simp only [processVal]
    rw [if_neg (show ¬ jsIsNaN (JSNum.fin r) = true by simp [jsIsNaN])]
    by_cases h1 : r > 1
    · rw [if_pos (show jsGt (JSNum.fin r) 1 from h1)]
      rw [if_neg (show ¬ jsLt (JSNum.fin 1) (-1) by norm_num [jsLt])]
      have hm : min 1 r = 1 := min_eq_left (by linarith)
      show (1 : ℝ) = max (-1) (min 1 r)
      rw [hm, max_eq_right (by norm_num)]
    · rw [if_neg (show ¬ jsGt (JSNum.fin r) 1 from h1)]
      by_cases h2 : r < -1
      · rw [if_pos (show jsLt (JSNum.fin r) (-1) from h2)]
        have hm : min 1 r = r := min_eq_right (by linarith)
        show (-1 : ℝ) = max (-1) (min 1 r)
        rw [hm, max_eq_left (by linarith)]
      · rw [if_neg (show ¬ jsLt (JSNum.fin r) (-1) from h2)]
        have hm : min 1 r = r := min_eq_right (by linarith)
        show r = max (-1) (min 1 r)
        rw [hm, max_eq_right (by linarith)]

/-- Claim C1 (amended): when the evaluator is constructed successfully and
never throws, each sample is processed independently in source order —
NaN is substituted by 0, positive Infinity is clamped to 1, negative
Infinity is clamped to -1, and a finite value is clamped to [-1, 1].
Only NaN is substituted by 0; Infinity is clamped, not zeroed. -/
theorem formula_persample_semantics (f : Nat → JSNum) :
    generateFromFormula (some (fun i => some (f i))) =
      (List.range FRAME_SIZE).map (fun i =>
        match f i with
        | .nan => (0 : ℝ)
        | .posInf => 1
        | .negInf => -1
        | .fin r => max (-1) (min 1 r)) := by
  rw [generateFromFormula_some, runFormula_some _ _ (fun i _ => by simp)]
  simp only [Option.getD_some]
  apply List.map_congr_left
  intro i _
  simpa using processVal_cases (f i)

/-- Counterexample for claim C1 as stated: a formula that evaluates to
positive Infinity at every index yields buffer[0] = 1 (the clamped value),
not the 0 the claim requires. -/
theorem formula_infinity_not_zeroed :
    (generateFromFormula (some (fun _ => some JSNum.posInf))).getD 0 0 = 1 ∧ (1 : ℝ) ≠ 0 := by
  constructor
  · rw [generateFromFormula_some, runFormula_some _ _ (fun i _ => by simp)]
    simp only [Option.getD_some]
    rw [getD_eq_getElem _ 0 0 (by rw [List.length_map, List.length_range]; norm_num [FRAME_SIZE])]
    rw [List.getElem_map]
    rw [processVal_cases]
  · norm_num

/-- The evaluator that throws at index 0 and returns the finite value 0 at
every other index. -/
def throwAtZero : Nat → Option JSNum :=
  fun i => if i = 0 then none else some (JSNum.fin 0)

/-- Claim C2 (amended): a failure to construct the evaluator yields the
sine buffer; a throw at any sample index also aborts the whole buffer and
yields the sine buffer (the same fallback, because the catch wraps the
whole loop); only when no index throws is each sample processed
independently. -/
theorem formula_throw_fallback (f : Nat → Option JSNum) :
    generateFromFormula none = generateSine ∧
    ((∃ i, i < FRAME_SIZE ∧ f i = none) → generateFromFormula (some f) = generateSine) ∧
    ((∀ i, i < FRAME_SIZE → f i ≠ none) →
      generateFromFormula (some f) =
        (List.range FRAME_SIZE).map (fun i => processVal ((f i).getD JSNum.nan))) := by
  refine ⟨rfl, ?_, ?_⟩
  · intro h
    rw [generateFromFormula_some, runFormula_none f FRAME_SIZE h, Option.getD_none]
  · intro h
    rw [generateFromFormula_some, runFormula_some f FRAME_SIZE h, Option.getD_some]

/-- Witness for claim C2: the evaluator throwing at index 0 produces the
sine fallback buffer. -/
theorem formula_throw_fallback_witness :
    (∃ i, i < FRAME_SIZE ∧ throwAtZero i = none) ∧
    generateFromFormula (some throwAtZero) = generateSine :=
  ⟨⟨0, by norm_num [FRAME_SIZE, throwAtZero]⟩,
    (formula_throw_fallback throwAtZero).2.1 ⟨0, by norm_num [FRAME_SIZE, throwAtZero]⟩⟩

/-- Counterexample for claim C2 as stated: with a throw only at index 0 the
claim predicts buffer[512] = 0 (index 512 evaluates to the finite value 0),
but the code returns the sine fallback, whose sample 512 is
sin(pi/2) = 1. -/
theorem formula_throw_not_per_sample :
    generateFromFormula (some throwAtZero) = generateSine ∧
    generateSine.getD 512 0 = 1 ∧ (1 : ℝ) ≠ 0 := by
  refine ⟨?_, ?_, by norm_num⟩
  · rw [generateFromFormula_some,
      runFormula_none throwAtZero FRAME_SIZE ⟨0, by norm_num [FRAME_SIZE, throwAtZero]⟩,
      Option.getD_none]
  · unfold generateSine
    rw [getD_eq_getElem _ 512 0 (by rw [List.length_map, List.length_range]; norm_num [FRAME_SIZE])]
    rw [List.getElem_map, List.getElem_range]
    have harg : ((512 : Nat) : ℝ) / (FRAME_SIZE : ℝ) * Real.pi * 2 = Real.pi / 2 := by
      have : (FRAME_SIZE : ℝ) = 2048 := by norm_num [FRAME_SIZE]
      rw [this]
      push_cast
      ring
    rw [harg, Real.sin_pi_div_two]

/-- normalizeBuffer from audioUtils.ts (lines 252-266 of the utils source):
scan for the maximum absolute sample; when it exceeds 0.0001, scale every
sample by its reciprocal; otherwise return the buffer unchanged. -/
noncomputable def normalizeBuffer (buffer : List ℝ) : List ℝ :=
  let maxAmp := buffer.foldl (fun m v => max m |v|) 0
  if maxAmp > 0.0001 then buffer.map (fun v => v * (1 / maxAmp)) else buffer

/-- One harmonic term of the additive synthesis:
Math.sin((i / FRAME_SIZE) * Math.PI * 2 * harmonicNum) with harmonicNum = h + 1. -/
noncomputable def harmonicTerm (h i : Nat) : ℝ :=
  Real.sin ((i : ℝ) / (FRAME_SIZE : ℝ) * Real.pi * 2 * ((h : ℝ) + 1))

/-- The inner loop of generateFromHarmonics for one harmonic h with
amplitude amp: buffer[i] += amp * sin(...). -/
noncomputable def addHarmonic (buffer : List ℝ) (amp : ℝ) (h : Nat) : List ℝ :=
  (List.range FRAME_SIZE).map (fun (i : Nat) => buffer.getD i 0 + amp * harmonicTerm h i)

/-- generateFromHarmonics from audioUtils.ts (lines 234-250 of the utils
source): start from a zero buffer, loop h over the harmonics array skipping
zero amplitudes (the continue), accumulate amp * sin(...) per sample, then
pass through normalizeBuffer. -/
noncomputable def generateFromHarmonics (harmonics : List ℝ) : List ℝ :=
  normalizeBuffer ((List.range harmonics.length).foldl
    (fun (buf : List ℝ) (h : Nat) =>
      let amp := harmonics.getD h 0
      if amp = 0 then buf else addHarmonic buf amp h)
    (List.replicate FRAME_SIZE 0))

/-- The naive additive-synthesis reference following the spec wording:
buffer[i] is the full sum over h in [0,N) of amplitude[h] * sin(...),
including the zero-amplitude terms, then normalized. -/
noncomputable def generateFromHarmonicsNaive (harmonics : List ℝ) : List ℝ :=
  normalizeBuffer ((List.range FRAME_SIZE).map (fun (i : Nat) =>
    ∑ h ∈ Finset.range harmonics.length, harmonics.getD h 0 * harmonicTerm h i))

/-- Reading a range-map buffer below FRAME_SIZE gives the generating function. -/
theorem getD_map_range (g : Nat → ℝ) (k n : Nat) (hk : k < n) :
    ((List.range n).map g).getD k 0 = g k := by
  rw [getD_eq_getElem _ k 0 (by rw [List.length_map, List.length_range]; omega)]
  rw [List.getElem_map, List.getElem_range]

/-- Adding one harmonic onto a buffer described by a generating function. -/
theorem addHarmonic_map (g : Nat → ℝ) (amp : ℝ) (h : Nat) :
    addHarmonic ((List.range FRAME_SIZE).map g) amp h =
      (List.range FRAME_SIZE).map (fun (i : Nat) => g i + amp * harmonicTerm h i) := by
  unfold addHarmonic
  apply List.ext_getElem (by simp)
  intro k h1 h2
  rw [List.getElem_map, List.getElem_map, List.getElem_range]
  rw [getD_map_range g k FRAME_SIZE (by simpa using h1)]

/-- The harmonic accumulation loop with the zero-amplitude skip computes
the same buffer as the full sum over the first n harmonics. -/
theorem harmonicFold_eq (harmonics : List ℝ) (n : Nat) :
    (List.range n).foldl
      (fun (buf : List ℝ) (h : Nat) =>
        let amp := harmonics.getD h 0
        if amp = 0 then buf else addHarmonic buf amp h)
      (List.replicate FRAME_SIZE 0) =
    (List.range FRAME_SIZE).map (fun (i : Nat) =>
      ∑ h ∈ Finset.range n, harmonics.getD h 0 * harmonicTerm h i) := by
  induction n with
  | zero =>
    rw [List.range_zero, List.foldl_nil]
    rw [show (fun (i : Nat) => ∑ h ∈ Finset.range 0, harmonics.getD h 0 * harmonicTerm h i)
        = fun (i : Nat) => (0 : ℝ) from funext (fun i => by simp)]
    rw [List.map_const', List.length_range]
  | succ n ih =>
    rw [List.range_succ, List.foldl_append, ih, List.foldl_cons, List.foldl_nil]
    simp only []
    by_cases hz : harmonics.getD n 0 = 0
    · rw [if_pos hz]
      apply List.map_congr_left
      intro i _
      rw [Finset.sum_range_succ, hz]
      ring
    · rw [if_neg hz, addHarmonic_map]
      apply List.map_congr_left
      intro i _
      rw [Finset.sum_range_succ]

/-- Claim C9: for every harmonic amplitude list, the optimized
generateFromHarmonics that skips zero-amplitude harmonics produces exactly
the same buffer as the naive reference that sums every harmonic including
the zero-amplitude ones and then normalizes. -/
theorem harmonics_skip_equivalence (harmonics : List ℝ) :
    generateFromHarmonics harmonics = generateFromHarmonicsNaive harmonics := by
  unfold generateFromHarmonics generateFromHarmonicsNaive
  rw [harmonicFold_eq]

/-- DataView.setUint8: write one byte (truncated mod 256) at an offset.
Like a DataView write into a fixed ArrayBuffer, List.set never changes the
length. -/
def setU8 (buf : List Nat) (off v : Nat) : List Nat := buf.set off (v % 256)

/-- DataView.setUint16(off, v, true): little-endian 16-bit write. -/
def setU16 (buf : List Nat) (off v : Nat) : List Nat :=
  setU8 (setU8 buf off v) (off + 1) (v / 256)

/-- DataView.setUint32(off, v, true): little-endian 32-bit write. -/
def setU32 (buf : List Nat) (off v : Nat) : List Nat :=
  setU8 (setU8 (setU8 (setU8 buf off v) (off + 1) (v / 256)) (off + 2) (v / 65536))
    (off + 3) (v / 16777216)

/-- DataView.setFloat32(off, sample, true): writes the four bytes of the
sample's IEEE-754 bit pattern little-endian; samples are represented by
their bit patterns. -/
def setFloat32 (buf : List Nat) (off pattern : Nat) : List Nat := setU32 buf off pattern

/-- writeString from audioUtils.ts (lines 325-329 of the utils source): one
setUint8 per character code. -/
def writeStr (buf : List Nat) (off : Nat) : List Nat → List Nat
  | [] => buf
  | ch :: rest => writeStr (setU8 buf off ch) (off + 1) rest

/-- The header-writing part of exportWavetableToWav (lines 294-311 of the
utils source): the RIFF chunk, the fmt chunk and the data chunk header,
written field by field at their fixed offsets. -/
def writeWavHeader (buf : List Nat) (dataSize : Nat) : List Nat :=
  let numChannels := 1
  let sampleRate := 44100
  let bitsPerSample := 32
  let byteRate := sampleRate * numChannels * bitsPerSample / 8
  let blockAlign := numChannels * bitsPerSample / 8
  let buf1 := writeStr buf 0 [82, 73, 70, 70]
  let buf2 := setU32 buf1 4 (36 + dataSize)
  let buf3 := writeStr buf2 8 [87, 65, 86, 69]
  let buf4 := writeStr buf3 12 [102, 109, 116, 32]
  let buf5 := setU32 buf4 16 16
  let buf6 := setU16 buf5 20 3
  let buf7 := setU16 buf6 22 numChannels
  let buf8 := setU32 buf7 24 sampleRate
  let buf9 := setU32 buf8 28 byteRate
  let buf10 := setU16 buf9 32 blockAlign
  let buf11 := setU16 buf10 34 bitsPerSample
  let buf12 := writeStr buf11 36 [100, 97, 116, 97]
  setU32 buf12 40 dataSize

/-- One iteration of the frames.forEach sample-writing loop of
exportWavetableToWav (lines 314-320 of the utils source), carrying the
buffer and the running offset: a frame writes FRAME_SIZE samples, the
offset advancing by 4 per setFloat32, so sample i of a frame starting at
off lands at off + 4*i and the next frame starts at off + 4*FRAME_SIZE. -/
def sampleStep (st : List Nat × Nat) (f : List Nat) : List Nat × Nat :=
  ((List.range FRAME_SIZE).foldl
    (fun (b : List Nat) (i : Nat) => setFloat32 b (st.2 + 4 * i) (f.getD i 0)) st.1,
   st.2 + 4 * FRAME_SIZE)

/-- The frames.forEach sample-writing loop: fold sampleStep over all frames
starting from the given buffer and offset, returning the final buffer. -/
def writeSamples (buf : List Nat) (off : Nat) (frames : List (List Nat)) : List Nat :=
  (frames.foldl sampleStep (buf, off)).1

/-- One sampleStep on an explicit buffer-offset pair. -/
theorem sampleStep_mk (buf : List Nat) (off : Nat) (f : List Nat) :
    sampleStep (buf, off) f =
    ((List.range FRAME_SIZE).foldl
      (fun (b : List Nat) (i : Nat) => setFloat32 b (off + 4 * i) (f.getD i 0)) buf,
     off + 4 * FRAME_SIZE) := by
  unfold sampleStep
  rfl

/-- writeSamples on an empty frame list returns the buffer unchanged. -/
theorem writeSamples_nil (buf : List Nat) (off : Nat) : writeSamples buf off [] = buf := rfl

/-- writeSamples unfolded one frame at a time. -/
theorem writeSamples_cons (buf : List Nat) (off : Nat) (f : List Nat)
    (rest : List (List Nat)) :
    writeSamples buf off (f :: rest)
      = writeSamples ((List.range FRAME_SIZE).foldl
          (fun (b : List Nat) (i : Nat) => setFloat32 b (off + 4 * i) (f.getD i 0)) buf)
          (off + 4 * FRAME_SIZE) rest := by
  unfold writeSamples
  rw [List.foldl_cons, sampleStep_mk]

/-- exportWavetableToWav from audioUtils.ts (lines 278-323 of the utils
source): allocate a zero ArrayBuffer of 44 + dataSize bytes with
dataSize = numFrames * FRAME_SIZE * numChannels * 4, write the header
fields, then write all samples starting at offset 44. -/
def exportWavetableToWav (frames : List (List Nat)) : List Nat :=
  let numFrames := frames.length
  let numChannels := 1
  let dataSize := numFrames * FRAME_SIZE * numChannels * 4
  writeSamples (writeWavHeader (List.replicate (44 + dataSize) 0) dataSize) 44 frames

/-- Little-endian byte pair of a 16-bit value, per the spec layout table. -/
def u16le (v : Nat) : List Nat := [v % 256, v / 256 % 256]

/-- Little-endian byte quadruple of a 32-bit value, per the spec layout table. -/
def u32le (v : Nat) : List Nat :=
  [v % 256, v / 256 % 256, v / 65536 % 256, v / 16777216 % 256]

/-- The 44 header bytes of the layout table in spec section 4.6. -/
def wavHeaderSpec (dataSize : Nat) : List Nat :=
  [82, 73, 70, 70] ++ u32le (36 + dataSize) ++ [87, 65, 86, 69] ++
  [102, 109, 116, 32] ++ u32le 16 ++ u16le 3 ++ u16le 1 ++ u32le 44100 ++
  u32le 176400 ++ u16le 4 ++ u16le 32 ++ [100, 97, 116, 97] ++ u32le dataSize

/-- The byte sequence demanded by the spec: the header for
dataSize = numFrames * FRAME_SIZE * 4 followed by every frame's samples in
frame order, each sample as four little-endian bytes. -/
def wavBytesSpec (frames : List (List Nat)) : List Nat :=
  wavHeaderSpec (frames.length * FRAME_SIZE * 4) ++
    frames.flatMap (fun f => f.flatMap u32le)

/-- The 44 byte values of the header writes, in write order: the thirteen
header fields of writeWavHeader are contiguous, so they amount to one
writeStr of these values starting at offset 0. -/
def headerValues (d : Nat) : List Nat :=
  [82, 73, 70, 70] ++
  ([36 + d, (36 + d) / 256, (36 + d) / 65536, (36 + d) / 16777216] ++
  ([87, 65, 86, 69] ++
  ([102, 109, 116, 32] ++
  ([16, 16 / 256, 16 / 65536, 16 / 16777216] ++
  ([3, 3 / 256] ++
  ([1, 1 / 256] ++
  ([44100, 44100 / 256, 44100 / 65536, 44100 / 16777216] ++
  ([44100 * 1 * 32 / 8, 44100 * 1 * 32 / 8 / 256, 44100 * 1 * 32 / 8 / 65536,
    44100 * 1 * 32 / 8 / 16777216] ++
  ([1 * 32 / 8, 1 * 32 / 8 / 256] ++
  ([32, 32 / 256] ++
  ([100, 97, 116, 97] ++
   [d, d / 256, d / 65536, d / 16777216])))))))))))

/-- A 16-bit little-endian write is a two-byte writeStr. -/
theorem setU16_eq_writeStr (buf : List Nat) (off v : Nat) :
    setU16 buf off v = writeStr buf off [v, v / 256] := rfl

/-- A 32-bit little-endian write is a four-byte writeStr. -/
theorem setU32_eq_writeStr (buf : List Nat) (off v : Nat) :
    setU32 buf off v = writeStr buf off [v, v / 256, v / 65536, v / 16777216] := rfl

/-- Two consecutive writeStr runs concatenate. -/
theorem writeStr_append (s : List Nat) : ∀ (buf : List Nat) (off : Nat) (t : List Nat),
    writeStr buf off (s ++ t) = writeStr (writeStr buf off s) (off + s.length) t := by
  induction s with
  | nil => intro buf off t; simp [writeStr]
  | cons ch s ih =>
    intro buf off t
    show writeStr (setU8 buf off ch) (off + 1) (s ++ t) = _
    rw [ih]
    show _ = writeStr (writeStr (setU8 buf off ch) (off + 1) s) (off + (s.length + 1)) t
    congr 1
    omega

/-- The thirteen header writes collapse into one contiguous writeStr. -/
theorem writeWavHeader_as (buf : List Nat) (d : Nat) :
    writeWavHeader buf d = writeStr buf 0 (headerValues d) := by
  rw [headerValues]
  simp only [writeStr_append]
  rw [writeWavHeader]
  simp only [setU16_eq_writeStr, setU32_eq_writeStr]
  norm_num

/-- A one-byte write at the start of the zero region after a prefix. -/
theorem setU8_at (p rest : List Nat) (v : Nat) :
    setU8 (p ++ (0 :: rest)) p.length v = p ++ ((v % 256) :: rest) := by
  induction p with
  | nil => rfl
  | cons x p ih =>
    simp only [List.cons_append, List.length_cons]
    unfold setU8 at ih ⊢
    rw [List.set_cons_succ, ih]

/-- A writeStr run into a zero region right after a prefix writes the
truncated byte values there and leaves everything else alone. -/
theorem writeStr_at (s : List Nat) : ∀ (p rest : List Nat),
    writeStr (p ++ (List.replicate s.length 0 ++ rest)) p.length s
      = p ++ (s.map (fun v => v % 256) ++ rest) := by
  induction s with
  | nil => intro p rest; simp [writeStr]
  | cons ch s ih =>
    intro p rest
    show writeStr (setU8 (p ++ (List.replicate (s.length + 1) 0 ++ rest)) p.length ch)
        (p.length + 1) s = _
    rw [show List.replicate (s.length + 1) (0 : Nat) ++ rest
        = 0 :: (List.replicate s.length 0 ++ rest) from by rw [List.replicate_succ]; rfl]
    rw [setU8_at]
    rw [show p ++ ((ch % 256) :: (List.replicate s.length 0 ++ rest))
        = (p ++ [ch % 256]) ++ (List.replicate s.length 0 ++ rest) from by simp]
    rw [show p.length + 1 = (p ++ [ch % 256]).length from by simp]
    rw [ih (p ++ [ch % 256]) rest]
    simp

/-- A 32-bit write at the start of the zero region after a prefix fills
exactly the four little-endian bytes. -/
theorem setU32_at (p rest : List Nat) (v : Nat) :
    setU32 (p ++ (0 :: 0 :: 0 :: 0 :: rest)) p.length v = p ++ (u32le v ++ rest) := by
  rw [setU32_eq_writeStr]
  have h := writeStr_at [v, v / 256, v / 65536, v / 16777216] p rest
  simpa [u32le] using h

/-- Four little-endian bytes per sample value. -/
theorem length_flatMap_u32le (f : List Nat) :
    (f.flatMap u32le).length = 4 * f.length := by
  induction f with
  | nil => rfl
  | cons a t ih =>
    rw [List.flatMap_cons, List.length_append, ih,
      show (u32le a).length = 4 from by simp [u32le], List.length_cons]
    ring

/-- Four bytes per sample index read by the per-frame loop. -/
theorem length_rangeFlatMap_u32le (f : List Nat) (n : Nat) :
    ((List.range n).flatMap (fun (i : Nat) => u32le (f.getD i 0))).length = 4 * n := by
  induction n with
  | zero => rfl
  | succ m ih =>
    rw [List.range_succ, List.flatMap_append, List.length_append, ih,
      show (([m] : List Nat).flatMap (fun (i : Nat) => u32le (f.getD i 0))).length = 4 from by
        simp [u32le]]
    ring

/-- The concatenated sample bytes of a wavetable occupy
numFrames * FRAME_SIZE * 4 bytes. -/
theorem length_framesFlatMap (frames : List (List Nat))
    (hf : ∀ f ∈ frames, f.length = FRAME_SIZE) :
    (frames.flatMap (fun f => f.flatMap u32le)).length = frames.length * FRAME_SIZE * 4 := by
  induction frames with
  | nil => rfl
  | cons f rest ih =>
    rw [List.flatMap_cons, List.length_append, length_flatMap_u32le,
      hf f (List.mem_cons_self f rest), ih (fun g hg => hf g (List.mem_cons_of_mem f hg)),
      List.length_cons]
    ring

/-- The per-frame sample loop writes the frame's little-endian sample bytes
right after the prefix, consuming 4*n zero bytes. -/
theorem frameLoop_eq (f : List Nat) (p : List Nat) (n : Nat) :
    ∀ rest : List Nat,
    (List.range n).foldl
      (fun (b : List Nat) (i : Nat) => setFloat32 b (p.length + 4 * i) (f.getD i 0))
      (p ++ (List.replicate (4 * n) 0 ++ rest))
    = p ++ ((List.range n).flatMap (fun (i : Nat) => u32le (f.getD i 0)) ++ rest) := by
  induction n with
  | zero => intro rest; rfl
  | succ n ih =>
    intro rest
    rw [List.range_succ, List.foldl_append, List.foldl_cons, List.foldl_nil,
      List.flatMap_append]
    rw [show 4 * (n + 1) = 4 * n + 4 from by ring, List.replicate_add, List.append_assoc]
    rw [ih (List.replicate 4 0 ++ rest)]
    rw [show p ++ ((List.range n).flatMap (fun (i : Nat) => u32le (f.getD i 0)) ++
        (List.replicate 4 0 ++ rest))
        = (p ++ (List.range n).flatMap (fun (i : Nat) => u32le (f.getD i 0))) ++
          (0 :: 0 :: 0 :: 0 :: rest) from by
      rw [← List.append_assoc]
      rfl]
    rw [show p.length + 4 * n
        = (p ++ (List.range n).flatMap (fun (i : Nat) => u32le (f.getD i 0))).length from by
      rw [List.length_append, length_rangeFlatMap_u32le]]
    show setU32 _ _ _ = _
    rw [setU32_at]
    rw [show (([n] : List Nat).flatMap (fun (i : Nat) => u32le (f.getD i 0)))
        = u32le (f.getD n 0) from by simp]
    rw [List.append_assoc, List.append_assoc]

/-- The writeSamples loop turns the zero data region after the header into
the concatenation of all frames' little-endian sample bytes. -/
theorem writeSamples_eq (frames : List (List Nat)) :
    ∀ p : List Nat,
    writeSamples (p ++ List.replicate (frames.length * (4 * FRAME_SIZE)) 0) p.length frames
      = p ++ frames.flatMap
          (fun f => (List.range FRAME_SIZE).flatMap (fun (i : Nat) => u32le (f.getD i 0))) := by
  induction frames with
  | nil =>
    intro p
    rw [writeSamples_nil]
    simp
  | cons f rest ih =>
    intro p
    rw [show (f :: rest).length * (4 * FRAME_SIZE)
        = 4 * FRAME_SIZE + rest.length * (4 * FRAME_SIZE) from by
      rw [List.length_cons]; ring]
    rw [List.replicate_add]
    rw [show p ++ (List.replicate (4 * FRAME_SIZE) 0 ++
        List.replicate (rest.length * (4 * FRAME_SIZE)) 0)
        = p ++ List.replicate (4 * FRAME_SIZE) 0 ++
          List.replicate (rest.length * (4 * FRAME_SIZE)) 0 from by
      rw [List.append_assoc]]
    rw [show p ++ List.replicate (4 * FRAME_SIZE) 0 ++
        List.replicate (rest.length * (4 * FRAME_SIZE)) 0
        = p ++ (List.replicate (4 * FRAME_SIZE) 0 ++
          List.replicate (rest.length * (4 * FRAME_SIZE)) 0) from by
      rw [List.append_assoc]]
    rw [writeSamples_cons]
    rw [frameLoop_eq f p FRAME_SIZE (List.replicate (rest.length * (4 * FRAME_SIZE)) 0)]
    rw [show p ++ ((List.range FRAME_SIZE).flatMap (fun (i : Nat) => u32le (f.getD i 0)) ++
        List.replicate (rest.length * (4 * FRAME_SIZE)) 0)
        = (p ++ (List.range FRAME_SIZE).flatMap (fun (i : Nat) => u32le (f.getD i 0))) ++
          List.replicate (rest.length * (4 * FRAME_SIZE)) 0 from by
      rw [List.append_assoc]]
    rw [show p.length + 4 * FRAME_SIZE
        = (p ++ (List.range FRAME_SIZE).flatMap
            (fun (i : Nat) => u32le (f.getD i 0))).length from by
      rw [List.length_append, length_rangeFlatMap_u32le]]
    rw [ih]
    rw [List.flatMap_cons, List.append_assoc]

/-- The header writes stay inside the first 44 bytes: on a buffer whose
first 44 bytes are zero, they produce exactly the 44 spec header bytes and
leave the rest alone. -/
theorem writeWavHeader_eq (rest : List Nat) (d : Nat) :
    writeWavHeader (List.replicate 44 0 ++ rest) d = wavHeaderSpec d ++ rest := by
  rw [writeWavHeader_as]
  have h := writeStr_at (headerValues d) [] rest
  rw [show (headerValues d).length = 44 from by simp [headerValues]] at h
  simp only [List.nil_append, List.length_nil] at h
  rw [h]
  congr 1

/-- Claim C5: for every sequence of FRAME_SIZE-sample frames,
exportWavetableToWav produces exactly the byte sequence of the spec layout
table — the 44 little-endian header bytes for dataSize =
numFrames*FRAME_SIZE*4 followed by every frame's samples in frame order as
little-endian 32-bit words — and hence exactly 44 + numFrames*FRAME_SIZE*4
bytes in total. -/
theorem exportWavetableToWav_spec (frames : List (List Nat))
    (hf : ∀ f ∈ frames, f.length = FRAME_SIZE) :
    exportWavetableToWav frames = wavBytesSpec frames ∧
    (exportWavetableToWav frames).length = 44 + frames.length * FRAME_SIZE * 4 := by
  have hmain : exportWavetableToWav frames = wavBytesSpec frames := by
    rw [show exportWavetableToWav frames
        = writeSamples (writeWavHeader
            (List.replicate (44 + frames.length * FRAME_SIZE * 1 * 4) 0)
            (frames.length * FRAME_SIZE * 1 * 4)) 44 frames from rfl]
    rw [show frames.length * FRAME_SIZE * 1 * 4 = frames.length * FRAME_SIZE * 4 from by ring]
    rw [List.replicate_add]
    rw [writeWavHeader_eq]
    rw [show List.replicate (frames.length * FRAME_SIZE * 4) (0 : Nat)
        = List.replicate (frames.length * (4 * FRAME_SIZE)) 0 from by
      rw [show frames.length * FRAME_SIZE * 4 = frames.length * (4 * FRAME_SIZE) from by ring]]
    rw [show (44 : Nat) = (wavHeaderSpec (frames.length * FRAME_SIZE * 4)).length from by
      simp [wavHeaderSpec, u32le, u16le]]
    rw [writeSamples_eq frames (wavHeaderSpec (frames.length * FRAME_SIZE * 4))]
    rw [wavBytesSpec]
    congr 1
    apply List.flatMap_congr
    intro f hfm
    rw [show (List.range FRAME_SIZE).flatMap (fun (i : Nat) => u32le (f.getD i 0))
        = ((List.range FRAME_SIZE).map (fun (i : Nat) => f.getD i 0)).flatMap u32le from by
      rw [List.flatMap_map]]
    rw [map_getD_range f 0 FRAME_SIZE (hf f hfm)]
  refine ⟨hmain, ?_⟩
  rw [hmain, wavBytesSpec, List.length_append]
  rw [show (wavHeaderSpec (frames.length * FRAME_SIZE * 4)).length = 44 from by
    simp [wavHeaderSpec, u32le, u16le]]
  rw [length_framesFlatMap frames hf]

/-- Witness for claim C5 at the concrete 1-frame all-zero wavetable: the
byte pattern of sample value 0.0 is 0, so the exported file is the 44
header bytes followed by 8192 zero bytes, 8236 bytes in total. -/
theorem exportWavetableToWav_spec_witness :
    (∀ f ∈ [List.replicate FRAME_SIZE 0], f.length = FRAME_SIZE) ∧
    exportWavetableToWav [List.replicate FRAME_SIZE 0]
      = wavBytesSpec [List.replicate FRAME_SIZE 0] ∧
    (exportWavetableToWav [List.replicate FRAME_SIZE 0]).length
      = 44 + 1 * FRAME_SIZE * 4 :=
  ⟨by simp,
    (exportWavetableToWav_spec [List.replicate FRAME_SIZE 0] (by simp)).1,
    (exportWavetableToWav_spec [List.replicate FRAME_SIZE 0] (by simp)).2⟩

end WaveForge
